import Mathlib

/-
Verification of the latest-successful-job-run action: a shallow embedding of
the two implementations of the commit-resolution algorithm (the TypeScript
action in src/index.ts and the Go action in main.go / its sibling file) and
proofs about them.

Modelling conventions:
- A workflow run record carries the fields the code reads (id, status,
  conclusion, head branch, head commit sha) together with the outcome of the
  per-run job-list fetch (listJobsForWorkflowRun / ListWorkflowJobs), as an
  Except value: .ok jobs when the provider call succeeds, .error e when it
  fails.  A thrown JS error and a Go panic are both modelled as Except.error.
- The run-list fetch (listWorkflowRunsForRepo / ListRepositoryWorkflowRuns)
  is passed to the resolver as an Except value for the same reason.
- The provider's branch / status query filtering (an external collaborator,
  the GitHub API) is modelled as list filtering over a repository-wide run
  list, per the provider contract in the design document.
- Environment variables are Option String (none = unset).
-/

deriving instance DecidableEq for Except

namespace LSJR

/-- A job record as read by both implementations: name, status, conclusion. -/
structure Job where
  name : String
  status : String
  conclusion : String
  deriving DecidableEq

/-- A workflow run record together with the outcome of fetching its job list. -/
structure WorkflowRun where
  id : Nat
  status : String
  conclusion : String
  head_branch : String
  head_sha : String
  jobsFetch : Except String (List Job)
  deriving DecidableEq

/-- The job-match test shared verbatim by both implementations:
name equals the target, status is completed, conclusion is success. -/
def jobMatches (jobName : String) (j : Job) : Bool :=
  j.name == jobName && j.status == "completed" && j.conclusion == "success"

/-- Whether a run's (successfully fetched) job list contains a matching job. -/
def runHasMatch (jobName : String) (r : WorkflowRun) : Bool :=
  match r.jobsFetch with
  | .ok jobs => jobs.any (jobMatches jobName)
  | .error _ => false

/-- Replace a run's job list with a successfully fetched one. -/
def setJobs (r : WorkflowRun) (jobs : List Job) : WorkflowRun :=
  { r with jobsFetch := .ok jobs }

/-- A run whose job fetch succeeds and yields no matching job. -/
def okNoMatch (jobName : String) (r : WorkflowRun) : Bool :=
  match r.jobsFetch with
  | .ok jobs => !jobs.any (jobMatches jobName)
  | .error _ => false

/-- A run that is completed and whose job fetch succeeds. -/
def completedOk (r : WorkflowRun) : Bool :=
  r.status == "completed" &&
    match r.jobsFetch with
    | .ok _ => true
    | .error _ => false

/-- Modelled from the spec: the Run History Provider's branch filter for the
Mode B query (listWorkflowRunsForRepo with a branch parameter): the runs on
the given branch, newest-first order preserved. -/
def listRunsForBranch (repoRuns : List WorkflowRun) (branch : String) : List WorkflowRun :=
  repoRuns.filter (fun r => r.head_branch == branch)

/-- Modelled from the spec: the Run History Provider's query for the Mode A
call (listWorkflowRunsForRepo with branch, status success, page 1,
per_page 1): at most the single newest run on the branch whose outcome is
success. -/
def listSuccessRunsPage1 (repoRuns : List WorkflowRun) (branch : String) : List WorkflowRun :=
  (repoRuns.filter (fun r => r.head_branch == branch && r.conclusion == "success")).take 1

/-- Embeds handleWorkflowRunSha (src/index.ts): given the provider response
for the Mode A query, return the empty string when there are no runs, and
the head sha of the first (newest) run otherwise; a provider failure is
rethrown with a prefixed message. -/
def handleWorkflowRunSha (fetch : Except String (List WorkflowRun)) : Except String String :=
  match fetch with
  | .error e => .error ("Error getting workflow runs: " ++ e)
  | .ok runs =>
    match runs with
    | [] => .ok ""
    | r :: _ => .ok r.head_sha

/-- Embeds the run loop of handleJobSha (src/index.ts): iterate the fetched
runs newest-first with no run-status check, fetch each run's jobs (a fetch
failure is rethrown with a prefixed message), and return the run's head sha
as soon as a matching job is found; an exhausted list yields the empty
string. -/
def handleJobShaLoop (jobName : String) : List WorkflowRun → Except String String
  | [] => .ok ""
  | r :: rest =>
    match r.jobsFetch with
    | .error e => .error ("Error getting workflow run jobs: " ++ e)
    | .ok jobs =>
      if jobs.any (jobMatches jobName) then .ok r.head_sha
      else handleJobShaLoop jobName rest

/-- Embeds handleJobSha (src/index.ts): a failed run-list fetch is rethrown
with a prefixed message, otherwise the run loop is entered. -/
def handleJobSha (jobName : String) (fetch : Except String (List WorkflowRun)) :
    Except String String :=
  match fetch with
  | .error e => .error ("Error getting workflow runs: " ++ e)
  | .ok runs => handleJobShaLoop jobName runs

/-- Embeds the JavaScript string split on "/" at the character level:
split("/") on the list of characters, empty segments preserved. -/
def splitOnChar (c : Char) : List Char → List (List Char)
  | [] => [[]]
  | x :: xs =>
    let r := splitOnChar c xs
    if x = c then [] :: r
    else
      match r with
      | [] => [[x]]
      | y :: ys => (x :: y) :: ys

/-- The JS expression ref.split("/") as a Lean function on String. -/
def splitSlash (s : String) : List String :=
  (splitOnChar '/' s.data).map (fun cs => String.mk cs)

/-- Error message thrown by getCurrentBranchName for a missing head ref. -/
def headRefErr : String := "Could not get branch name from GITHUB_HEAD_REF"

/-- Error message thrown by getCurrentBranchName for a missing or malformed ref. -/
def refErr : String := "Could not get branch name from GITHUB_REF"

/-- Embeds getCurrentBranchName (src/index.ts).  On a pull_request event the
head ref is returned, with a thrown error when it is unset or empty (the JS
falsiness test).  Otherwise the third "/"-separated segment of the ref is
returned, with a thrown error when the ref is unset, has no third segment,
or the third segment is empty. -/
def getCurrentBranchName (eventName ref headRef : Option String) : Except String String :=
  if eventName == some "pull_request" then
    match headRef with
    | some h => if h == "" then .error headRefErr else .ok h
    | none => .error headRefErr
  else
    match ref with
    | some r =>
      match (splitSlash r)[2]? with
      | some s => if s == "" then .error refErr else .ok s
      | none => .error refErr
    | none => .error refErr

/-- Mode A as wired in getSha (src/index.ts): the provider query for the
newest success run on the branch, fed to handleWorkflowRunSha. -/
def resolveLatestSuccessfulRun (repoRuns : List WorkflowRun) (branch : String) :
    Except String String :=
  handleWorkflowRunSha (.ok (listSuccessRunsPage1 repoRuns branch))

/-- Mode B as wired in getSha (src/index.ts): the branch-filtered provider
query fed to handleJobSha. -/
def resolveJobSuccess (jobName branch : String) (repoRuns : List WorkflowRun) :
    Except String String :=
  handleJobSha jobName (.ok (listRunsForBranch repoRuns branch))

namespace Go

/-- Embeds the run loop of getLastSuccessfulWorkflowRunCommit (main.go and
its sibling file): iterate the fetched runs newest-first, consider only runs
whose status is completed, fetch each considered run's jobs (a fetch failure
panics, modelled as an error), and return the run's head commit sha as soon
as a matching job is found; an exhausted list yields no match. -/
def getLastSuccessfulLoop (jobName : String) : List WorkflowRun → Except String (Option String)
  | [] => .ok none
  | r :: rest =>
    if r.status == "completed" then
      match r.jobsFetch with
      | .error e => .error e
      | .ok jobs =>
        if jobs.any (jobMatches jobName) then .ok (some r.head_sha)
        else getLastSuccessfulLoop jobName rest
    else getLastSuccessfulLoop jobName rest

/-- The Go runtime panic raised by WorkflowRuns[0] on an empty slice. -/
def emptyHistoryPanic : String := "panic: runtime error: index out of range [0] with length 0"

/-- Embeds getLastSuccessfulWorkflowRunCommit (main.go and its sibling
file): a failed run-list fetch panics (modelled as an error); otherwise the
loop runs, and when it finds no match the function falls back to
WorkflowRuns[0], the newest fetched run's head commit sha, which on an empty
run list is an index-out-of-range panic. -/
def getLastSuccessfulWorkflowRunCommit (jobName : String)
    (fetch : Except String (List WorkflowRun)) : Except String String :=
  match fetch with
  | .error e => .error e
  | .ok runs =>
    match getLastSuccessfulLoop jobName runs with
    | .error e => .error e
    | .ok (some sha) => .ok sha
    | .ok none =>
      match runs with
      | [] => .error emptyHistoryPanic
      | r :: _ => .ok r.head_sha

/-- Embeds getCurrentBranchName (the sibling Go file): for a pull_request
event the raw GITHUB_HEAD_REF value is returned, otherwise the raw
GITHUB_REF value; os.Getenv yields the empty string for an unset variable
and nothing fails. -/
def getCurrentBranchName (eventName ref headRef : Option String) : String :=
  if eventName.getD "" == "pull_request" then headRef.getD "" else ref.getD ""

end Go

/-- Specification-side restatement for the Mode A claim: the head commit sha
of the newest run on the branch whose outcome is success, or the empty
string when no such run exists. -/
def newestSuccessShaSpec (repoRuns : List WorkflowRun) (branch : String) : String :=
  match repoRuns.filter (fun r => r.head_branch == branch && r.conclusion == "success") with
  | [] => ""
  | r :: _ => r.head_sha

/-- A concrete job record that satisfies the match test for name "build". -/
def jobBuildOk : Job := ⟨"build", "completed", "success"⟩

/-- A concrete job record with the name "build" that fails the match test. -/
def jobBuildFail : Job := ⟨"build", "completed", "failure"⟩

theorem anyPerm {α : Type} (p : α → Bool) {l₁ l₂ : List α} (h : l₁.Perm l₂) :
    l₁.any p = l₂.any p := by
  induction h with
  | nil => rfl
  | cons x _ ih => simp [List.any_cons, ih]
  | swap x y l => simp [List.any_cons, Bool.or_left_comm]
  | trans _ _ ih₁ ih₂ => exact ih₁.trans ih₂

theorem find?_eq_none_of_any_false {α : Type} (p : α → Bool) (l : List α)
    (h : l.any p = false) : l.find? p = none := by
  rw [List.find?_eq_none]
  intro x hx
  have := List.any_eq_false.mp h x hx
  simp [this]

theorem handleWorkflowRunSha_ok (runs : List WorkflowRun) :
    handleWorkflowRunSha (.ok runs) =
      .ok (match runs with | [] => "" | r :: _ => r.head_sha) := by
  cases runs <;> rfl

theorem filter_map_update (repoRuns : List WorkflowRun) (p : WorkflowRun → Bool)
    (g : WorkflowRun → Except String (List Job))
    (hp : ∀ r, p { r with jobsFetch := g r } = p r) :
    (repoRuns.map fun r => { r with jobsFetch := g r }).filter p
      = (repoRuns.filter p).map fun r => { r with jobsFetch := g r } := by
  induction repoRuns with
  | nil => rfl
  | cons r t ih =>
    simp only [List.map_cons, List.filter_cons, hp r]
    cases hpr : p r <;> simp [ih]

/-- C2: Mode A (no job name) returns the head commit sha of the single
newest run with a success outcome on the branch, or the empty string when no
such run exists, and the result is independent of every run's job-level
data. -/
theorem c2_mode_a_newest_success (repoRuns : List WorkflowRun) (branch : String) :
    resolveLatestSuccessfulRun repoRuns branch = .ok (newestSuccessShaSpec repoRuns branch) ∧
    ∀ g : Except String (List Job) → Except String (List Job),
      resolveLatestSuccessfulRun (repoRuns.map fun r => { r with jobsFetch := g r.jobsFetch })
          branch
        = resolveLatestSuccessfulRun repoRuns branch := by
  constructor
  · simp only [resolveLatestSuccessfulRun, handleWorkflowRunSha_ok, newestSuccessShaSpec,
      listSuccessRunsPage1]
    cases h : repoRuns.filter (fun r => r.head_branch == branch && r.conclusion == "success") with
    | nil => rfl
    | cons r t => rfl
  · intro g
    simp only [resolveLatestSuccessfulRun, handleWorkflowRunSha_ok, listSuccessRunsPage1]
    rw [filter_map_update repoRuns
      (fun r => r.head_branch == branch && r.conclusion == "success")
      (fun r => g r.jobsFetch) (fun r => rfl)]
    cases h : repoRuns.filter (fun r => r.head_branch == branch && r.conclusion == "success") with
    | nil => rfl
    | cons r t => rfl

/-- C1: in Mode B, with the newest run R3 completed and not containing a
matching job, the next run R2 completed and containing one, and an older run
R1 also containing one, both implementations return R2's head sha and never
R1's, whatever R1 and the rest of the history hold (the scan
short-circuits). -/
theorem c1_first_match_short_circuits (j : String) (r3 r2 r1 : WorkflowRun)
    (rest : List WorkflowRun) (jobs3 jobs2 jobs1 : List Job)
    (h3s : r3.status = "completed") (h2s : r2.status = "completed")
    (h1s : r1.status = "completed")
    (h3 : r3.jobsFetch = .ok jobs3) (h3n : jobs3.any (jobMatches j) = false)
    (h2 : r2.jobsFetch = .ok jobs2) (h2y : jobs2.any (jobMatches j) = true)
    (h1 : r1.jobsFetch = .ok jobs1) (h1y : jobs1.any (jobMatches j) = true)
    (hne : r1.head_sha ≠ r2.head_sha) :
    handleJobSha j (.ok (r3 :: r2 :: r1 :: rest)) = .ok r2.head_sha ∧
    Go.getLastSuccessfulWorkflowRunCommit j (.ok (r3 :: r2 :: r1 :: rest)) = .ok r2.head_sha ∧
    handleJobSha j (.ok (r3 :: r2 :: r1 :: rest)) ≠ .ok r1.head_sha ∧
    Go.getLastSuccessfulWorkflowRunCommit j (.ok (r3 :: r2 :: r1 :: rest)) ≠ .ok r1.head_sha := by
  have hts : handleJobSha j (.ok (r3 :: r2 :: r1 :: rest)) = .ok r2.head_sha := by
    simp [handleJobSha, handleJobShaLoop, h3, h3n, h2, h2y]
  have hgoLoop : Go.getLastSuccessfulLoop j (r3 :: r2 :: r1 :: rest) = .ok (some r2.head_sha) := by
    simp [Go.getLastSuccessfulLoop, h3s, h2s, h3, h3n, h2, h2y]
  have hgo : Go.getLastSuccessfulWorkflowRunCommit j (.ok (r3 :: r2 :: r1 :: rest))
      = .ok r2.head_sha := by
    simp [Go.getLastSuccessfulWorkflowRunCommit, hgoLoop]
  refine ⟨hts, hgo, ?_, ?_⟩
  · rw [hts]
    intro hcontr
    exact hne (Except.ok.inj hcontr).symm
  · rw [hgo]
    intro hcontr
    exact hne (Except.ok.inj hcontr).symm

theorem loop_sync (j : String) (runs : List WorkflowRun) (hall : runs.all completedOk = true) :
    handleJobShaLoop j runs =
      (match runs.find? (runHasMatch j) with
       | some r => .ok r.head_sha
       | none => .ok "") ∧
    Go.getLastSuccessfulLoop j runs
      = .ok ((runs.find? (runHasMatch j)).map WorkflowRun.head_sha) := by
  induction runs with
  | nil => exact ⟨rfl, rfl⟩
  | cons r rest ih =>
    rw [List.all_cons, Bool.and_eq_true] at hall
    obtain ⟨hr, hrest⟩ := hall
    have hsync := ih hrest
    have hcc := hr
    simp only [completedOk, Bool.and_eq_true] at hcc
    obtain ⟨hst, hok⟩ := hcc
    cases hjf : r.jobsFetch with
    | error e => rw [hjf] at hok; simp at hok
    | ok jobs =>
      cases hany : jobs.any (jobMatches j) with
      | true =>
        have hfind : (r :: rest).find? (runHasMatch j) = some r :=
          List.find?_cons_of_pos _ (by simp [runHasMatch, hjf, hany])
        constructor
        · rw [hfind]; simp [handleJobShaLoop, hjf, hany]
        · rw [hfind]; simp [Go.getLastSuccessfulLoop, hst, hjf, hany]
      | false =>
        have hfind : (r :: rest).find? (runHasMatch j) = rest.find? (runHasMatch j) :=
          List.find?_cons_of_neg _ (by simp [runHasMatch, hjf, hany])
        constructor
        · rw [show handleJobShaLoop j (r :: rest) = handleJobShaLoop j rest by
            simp [handleJobShaLoop, hjf, hany], hfind]
          exact hsync.1
        · rw [show Go.getLastSuccessfulLoop j (r :: rest) = Go.getLastSuccessfulLoop j rest by
            simp [Go.getLastSuccessfulLoop, hst, hjf, hany], hfind]
          exact hsync.2

/-- C3 counterexample: a history whose only completed run has no matching
job, yet the TypeScript realization returns the head sha of a non-completed
run rather than the empty string the claim predicts. -/
theorem c3_counterexample :
    ((⟨1, "in_progress", "", "main", "hA", .ok [jobBuildOk]⟩ : WorkflowRun).status
        == "completed") = false ∧
    runHasMatch "build" ⟨2, "completed", "", "main", "hB", .ok [jobBuildFail]⟩ = false ∧
    handleJobShaLoop "build"
        [⟨1, "in_progress", "", "main", "hA", .ok [jobBuildOk]⟩,
         ⟨2, "completed", "", "main", "hB", .ok [jobBuildFail]⟩] = .ok "hA" ∧
    (Except.ok "hA" : Except String String) ≠ .ok "" := by decide

/-- C3 amended: on histories whose runs are all completed with successful
job fetches, the two realizations differ exactly in the no-match fallback:
with no matching run the TypeScript loop returns the empty string while the
Go realization returns the newest run's head sha, and with a matching run
both return the head sha of the same matching run. -/
theorem c3_two_fallbacks (j : String) (r0 : WorkflowRun) (rest : List WorkflowRun)
    (hall : (r0 :: rest).all completedOk = true) :
    ((r0 :: rest).any (runHasMatch j) = false →
        handleJobShaLoop j (r0 :: rest) = .ok "" ∧
        Go.getLastSuccessfulWorkflowRunCommit j (.ok (r0 :: rest)) = .ok r0.head_sha) ∧
    ((r0 :: rest).any (runHasMatch j) = true →
        ∃ rm ∈ r0 :: rest, runHasMatch j rm = true ∧
          handleJobShaLoop j (r0 :: rest) = .ok rm.head_sha ∧
          Go.getLastSuccessfulWorkflowRunCommit j (.ok (r0 :: rest)) = .ok rm.head_sha) := by
  have hsync := loop_sync j (r0 :: rest) hall
  constructor
  · intro hnone
    have hfind := find?_eq_none_of_any_false _ _ hnone
    constructor
    · rw [hsync.1, hfind]
    · simp [Go.getLastSuccessfulWorkflowRunCommit, hsync.2, hfind]
  · intro hsome
    obtain ⟨x, hx, hpx⟩ := List.any_eq_true.mp hsome
    obtain ⟨rm, hfind⟩ := Option.isSome_iff_exists.mp (List.find?_isSome.mpr ⟨x, hx, hpx⟩)
    refine ⟨rm, List.mem_of_find?_eq_some hfind, List.find?_some hfind, ?_, ?_⟩
    · rw [hsync.1, hfind]
    · simp [Go.getLastSuccessfulWorkflowRunCommit, hsync.2, hfind]

theorem c3_two_fallbacks_witness :
    handleJobShaLoop "build" [⟨2, "completed", "", "main", "hB", .ok [jobBuildFail]⟩]
        = .ok "" ∧
    Go.getLastSuccessfulWorkflowRunCommit "build"
        (.ok [⟨2, "completed", "", "main", "hB", .ok [jobBuildFail]⟩]) = .ok "hB" :=
  (c3_two_fallbacks "build" ⟨2, "completed", "", "main", "hB", .ok [jobBuildFail]⟩ []
    (by decide)).1 (by decide)

/-- C4 counterexample: the TypeScript realization fetches and inspects the
jobs of a run whose status is in_progress, and that run sources the
returned commit hash. -/
theorem c4_counterexample :
    ((⟨1, "in_progress", "", "main", "hip", .ok [jobBuildOk]⟩ : WorkflowRun).status
        == "completed") = false ∧
    handleJobShaLoop "build" [⟨1, "in_progress", "", "main", "hip", .ok [jobBuildOk]⟩]
        = .ok "hip" := by decide

/-- C4 amended: only the Go realization skips a non-completed run: its loop
leaves such a run entirely alone, never fetching its jobs (the run's job
fetch may even be a failure) and never letting it produce a match; the
TypeScript realization has no such skip. -/
theorem c4_go_skips_noncompleted (j : String) (r : WorkflowRun) (rest : List WorkflowRun)
    (h : (r.status == "completed") = false) :
    Go.getLastSuccessfulLoop j (r :: rest) = Go.getLastSuccessfulLoop j rest := by
  simp [Go.getLastSuccessfulLoop, h]

theorem c4_go_skips_noncompleted_witness :
    Go.getLastSuccessfulLoop "build"
        [⟨1, "queued", "", "main", "hq", .error "jobs never fetched"⟩] = .ok none := by
  rw [c4_go_skips_noncompleted "build"
    ⟨1, "queued", "", "main", "hq", .error "jobs never fetched"⟩ [] (by decide)]
  rfl

/-- C5 counterexample: on a zero-run history the Go realization of Mode B
does not return the empty string: indexing the empty run list panics,
modelled as an error result. -/
theorem c5_counterexample :
    Go.getLastSuccessfulWorkflowRunCommit "build" (.ok []) = .error Go.emptyHistoryPanic ∧
    (Except.error Go.emptyHistoryPanic : Except String String) ≠ .ok "" := by decide

/-- C5 amended: when the provider has no run on the branch, both TypeScript
modes return the empty string without error, but the Go realization of
Mode B panics (index out of range) on its zero-run history. -/
theorem c5_empty_history (j branch : String) (repoRuns : List WorkflowRun)
    (hz : listRunsForBranch repoRuns branch = []) :
    resolveLatestSuccessfulRun repoRuns branch = .ok "" ∧
    resolveJobSuccess j branch repoRuns = .ok "" ∧
    Go.getLastSuccessfulWorkflowRunCommit j (.ok []) = .error Go.emptyHistoryPanic := by
  refine ⟨?_, ?_, rfl⟩
  · have hb : ∀ r ∈ repoRuns, ¬(r.head_branch == branch) = true :=
      List.filter_eq_nil_iff.mp hz
    have hsucc : repoRuns.filter
        (fun r => r.head_branch == branch && r.conclusion == "success") = [] := by
      rw [List.filter_eq_nil_iff]
      intro r hr
      simp only [Bool.and_eq_true]
      intro hcontr
      exact hb r hr hcontr.1
    simp [resolveLatestSuccessfulRun, listSuccessRunsPage1, hsucc, handleWorkflowRunSha]
  · simp only [resolveJobSuccess]
    rw [hz]
    rfl

theorem c5_empty_history_witness :
    resolveLatestSuccessfulRun [⟨1, "completed", "success", "other", "hO", .ok []⟩] "main"
        = .ok "" ∧
    resolveJobSuccess "build" "main" [⟨1, "completed", "success", "other", "hO", .ok []⟩]
        = .ok "" := by
  have h := c5_empty_history "build" "main"
    [⟨1, "completed", "success", "other", "hO", .ok []⟩] (by decide)
  exact ⟨h.1, h.2.1⟩

theorem c1_witness :
    handleJobSha "build"
        (.ok [⟨3, "completed", "", "main", "c3", .ok [jobBuildFail]⟩,
              ⟨2, "completed", "", "main", "c2", .ok [jobBuildOk]⟩,
              ⟨1, "completed", "", "main", "c1", .ok [jobBuildOk]⟩])
      = .ok "c2" ∧
    Go.getLastSuccessfulWorkflowRunCommit "build"
        (.ok [⟨3, "completed", "", "main", "c3", .ok [jobBuildFail]⟩,
              ⟨2, "completed", "", "main", "c2", .ok [jobBuildOk]⟩,
              ⟨1, "completed", "", "main", "c1", .ok [jobBuildOk]⟩])
      = .ok "c2" := by
  have h := c1_first_match_short_circuits "build"
    ⟨3, "completed", "", "main", "c3", .ok [jobBuildFail]⟩
    ⟨2, "completed", "", "main", "c2", .ok [jobBuildOk]⟩
    ⟨1, "completed", "", "main", "c1", .ok [jobBuildOk]⟩
    [] [jobBuildFail] [jobBuildOk] [jobBuildOk]
    rfl rfl rfl rfl (by decide) rfl (by decide) rfl (by decide) (by decide)
  exact ⟨h.1, h.2.1⟩

/-- C6 counterexample: the Go realization fetches the repository-wide run
list with no branch filter, so a matching run on another branch determines
the result: with the other-branch run present the resolved sha is hO, and
with it absent the resolved sha is hM. -/
theorem c6_counterexample :
    ((⟨1, "completed", "", "other", "hO", .ok [jobBuildOk]⟩ : WorkflowRun).head_branch
        == "main") = false ∧
    Go.getLastSuccessfulWorkflowRunCommit "build"
        (.ok [⟨1, "completed", "", "other", "hO", .ok [jobBuildOk]⟩,
              ⟨2, "completed", "", "main", "hM", .ok [jobBuildFail]⟩]) = .ok "hO" ∧
    Go.getLastSuccessfulWorkflowRunCommit "build"
        (.ok [⟨2, "completed", "", "main", "hM", .ok [jobBuildFail]⟩]) = .ok "hM" ∧
    "hO" ≠ "hM" := by decide

/-- C6 amended: only the TypeScript realization restricts the Mode B query
to the branch: inserting a run of a different branch anywhere in the
repository history leaves its result unchanged; the Go realization queries
all repository runs unfiltered. -/
theorem c6_ts_branch_restricted (j branch : String) (pre post : List WorkflowRun)
    (r : WorkflowRun) (h : (r.head_branch == branch) = false) :
    resolveJobSuccess j branch (pre ++ r :: post) = resolveJobSuccess j branch (pre ++ post) := by
  simp [resolveJobSuccess, listRunsForBranch, List.filter_append, List.filter_cons, h]

theorem c6_ts_branch_restricted_witness :
    resolveJobSuccess "build" "main" [⟨1, "completed", "", "other", "hO", .ok [jobBuildOk]⟩]
      = .ok "" :=
  (c6_ts_branch_restricted "build" "main" [] []
    ⟨1, "completed", "", "other", "hO", .ok [jobBuildOk]⟩ (by decide)).trans rfl

/-- C7 counterexample: the Go realization of branch resolution returns the
raw full ref path for a non-pull-request event instead of the third
segment. -/
theorem c7_counterexample :
    Go.getCurrentBranchName (some "push") (some "refs/heads/main") none = "refs/heads/main" ∧
    "refs/heads/main" ≠ "main" := by decide

/-- C7 amended: the TypeScript realization behaves as the claim states (with
an empty third segment also failing): a pull-request event yields the head
ref and fails when it is unset or empty; any other event yields the third
segment of the ref and fails when the ref is unset, shorter than three
segments, or its third segment empty.  The Go realization returns the raw
head-ref or ref value with no extraction and no failure. -/
theorem c7_branch_resolution (ev refOpt hrOpt : Option String) (ref h seg : String)
    (hev : (ev == some "pull_request") = false) :
    (h ≠ "" → getCurrentBranchName (some "pull_request") refOpt (some h) = .ok h) ∧
    getCurrentBranchName (some "pull_request") refOpt none = .error headRefErr ∧
    getCurrentBranchName (some "pull_request") refOpt (some "") = .error headRefErr ∧
    getCurrentBranchName ev none hrOpt = .error refErr ∧
    ((splitSlash ref).length < 3 → getCurrentBranchName ev (some ref) hrOpt = .error refErr) ∧
    ((splitSlash ref)[2]? = some seg → seg ≠ "" →
        getCurrentBranchName ev (some ref) hrOpt = .ok seg) ∧
    ((splitSlash ref)[2]? = some "" → getCurrentBranchName ev (some ref) hrOpt = .error refErr) ∧
    Go.getCurrentBranchName (some "pull_request") refOpt hrOpt = hrOpt.getD "" ∧
    Go.getCurrentBranchName ev refOpt hrOpt = refOpt.getD "" := by
  refine ⟨?_, rfl, rfl, ?_, ?_, ?_, ?_, rfl, ?_⟩
  · intro hne
    simp [getCurrentBranchName, hne]
  · simp [getCurrentBranchName, hev]
  · intro hlen
    have hnone : (splitSlash ref)[2]? = none := List.getElem?_eq_none (by omega)
    simp [getCurrentBranchName, hev, hnone]
  · intro hseg hne
    simp [getCurrentBranchName, hev, hseg, hne]
  · intro hseg0
    simp [getCurrentBranchName, hev, hseg0]
  · cases ev with
    | none => rfl
    | some s =>
      by_cases hsp : s = "pull_request"
      · subst hsp
        simp at hev
      · simp [Go.getCurrentBranchName, hsp]

theorem c7_branch_resolution_witness :
    getCurrentBranchName (some "pull_request") (some "refs/heads/main") (some "feature-x")
        = .ok "feature-x" ∧
    getCurrentBranchName (some "push") (some "refs/heads/main") none = .ok "main" ∧
    getCurrentBranchName (some "push") (some "a/b") none = .error refErr ∧
    getCurrentBranchName (some "push") (some "a/b//c") none = .error refErr ∧
    Go.getCurrentBranchName (some "push") (some "refs/heads/main") none = "refs/heads/main" := by
  have h1 := c7_branch_resolution (some "push") (some "refs/heads/main") none
    "refs/heads/main" "feature-x" "main" (by decide)
  have h2 := c7_branch_resolution (some "push") (some "a/b") none "a/b" "x" "x" (by decide)
  have h3 := c7_branch_resolution (some "push") (some "a/b//c") none "a/b//c" "x" "x" (by decide)
  exact ⟨h1.1 (by decide), h1.2.2.2.2.2.1 (by decide) (by decide),
    h2.2.2.2.2.1 (by decide), h3.2.2.2.2.2.2.1 (by decide), h1.2.2.2.2.2.2.2.2⟩

theorem handleJobShaLoop_congr_suffix (j : String) (pre : List WorkflowRun)
    {l₁ l₂ : List WorkflowRun} (h : handleJobShaLoop j l₁ = handleJobShaLoop j l₂) :
    handleJobShaLoop j (pre ++ l₁) = handleJobShaLoop j (pre ++ l₂) := by
  induction pre with
  | nil => exact h
  | cons q qre ih =>
    simp only [List.cons_append, handleJobShaLoop]
    cases hq : q.jobsFetch with
    | error e => rfl
    | ok jobs => cases hqa : jobs.any (jobMatches j) <;> simp [hqa, ih]

theorem goLoop_congr_suffix (j : String) (pre : List WorkflowRun)
    {l₁ l₂ : List WorkflowRun}
    (h : Go.getLastSuccessfulLoop j l₁ = Go.getLastSuccessfulLoop j l₂) :
    Go.getLastSuccessfulLoop j (pre ++ l₁) = Go.getLastSuccessfulLoop j (pre ++ l₂) := by
  induction pre with
  | nil => exact h
  | cons q qre ih =>
    simp only [List.cons_append, Go.getLastSuccessfulLoop]
    cases hst : q.status == "completed" with
    | false => simpa [hst] using ih
    | true =>
      cases hq : q.jobsFetch with
      | error e => simp [hst, hq]
      | ok jobs => cases hqa : jobs.any (jobMatches j) <;> simp [hst, hq, hqa, ih]

/-- C8: in Mode B the run-level match outcome depends only on the multiset
of a run's job records: one matching job record suffices however its
same-named siblings conclude, and permuting a run's job list changes
neither implementation's resolution result. -/
theorem c8_job_order_irrelevant (j : String) (r : WorkflowRun) (jobs₁ jobs₂ : List Job)
    (pre post : List WorkflowRun) (hperm : jobs₁.Perm jobs₂) :
    handleJobShaLoop j (pre ++ setJobs r jobs₁ :: post)
      = handleJobShaLoop j (pre ++ setJobs r jobs₂ :: post) ∧
    Go.getLastSuccessfulLoop j (pre ++ setJobs r jobs₁ :: post)
      = Go.getLastSuccessfulLoop j (pre ++ setJobs r jobs₂ :: post) ∧
    ∀ jb ∈ jobs₁, jobMatches j jb = true → runHasMatch j (setJobs r jobs₁) = true := by
  have hany : jobs₁.any (jobMatches j) = jobs₂.any (jobMatches j) := anyPerm _ hperm
  refine ⟨?_, ?_, ?_⟩
  · refine handleJobShaLoop_congr_suffix j pre ?_
    simp only [handleJobShaLoop, setJobs]
    rw [hany]
  · refine goLoop_congr_suffix j pre ?_
    simp only [Go.getLastSuccessfulLoop, setJobs]
    rw [hany]
  · intro jb hmem hmatch
    simp only [runHasMatch, setJobs]
    exact List.any_eq_true.mpr ⟨jb, hmem, hmatch⟩

theorem c8_job_order_irrelevant_witness :
    handleJobShaLoop "build"
        [setJobs ⟨1, "completed", "", "main", "hW", .error "placeholder"⟩
          [jobBuildFail, jobBuildOk]]
      = handleJobShaLoop "build"
        [setJobs ⟨1, "completed", "", "main", "hW", .error "placeholder"⟩
          [jobBuildOk, jobBuildFail]] ∧
    runHasMatch "build"
        (setJobs ⟨1, "completed", "", "main", "hW", .error "placeholder"⟩
          [jobBuildFail, jobBuildOk]) = true := by
  have h := c8_job_order_irrelevant "build"
    ⟨1, "completed", "", "main", "hW", .error "placeholder"⟩
    [jobBuildFail, jobBuildOk] [jobBuildOk, jobBuildFail] [] []
    (List.Perm.swap jobBuildOk jobBuildFail [])
  exact ⟨h.1, h.2.2 jobBuildOk (by decide) (by decide)⟩

theorem handleJobShaLoop_drop_okNoMatch (j : String) (l : List WorkflowRun) :
    ∀ pre : List WorkflowRun, pre.all (okNoMatch j) = true →
      handleJobShaLoop j (pre ++ l) = handleJobShaLoop j l
  | [], _ => rfl
  | q :: qre, hpre => by
    rw [List.all_cons, Bool.and_eq_true] at hpre
    obtain ⟨hq, hqre⟩ := hpre
    cases hjf : q.jobsFetch with
    | error e => simp [okNoMatch, hjf] at hq
    | ok jobs =>
      have hno : jobs.any (jobMatches j) = false := by simpa [okNoMatch, hjf] using hq
      simp only [List.cons_append, handleJobShaLoop, hjf, hno]
      exact handleJobShaLoop_drop_okNoMatch j l qre hqre

theorem goLoop_drop_okNoMatch (j : String) (l : List WorkflowRun) :
    ∀ pre : List WorkflowRun, pre.all (okNoMatch j) = true →
      Go.getLastSuccessfulLoop j (pre ++ l) = Go.getLastSuccessfulLoop j l
  | [], _ => rfl
  | q :: qre, hpre => by
    rw [List.all_cons, Bool.and_eq_true] at hpre
    obtain ⟨hq, hqre⟩ := hpre
    cases hst : q.status == "completed" with
    | false =>
      simp only [List.cons_append, Go.getLastSuccessfulLoop, hst]
      simp only [Bool.false_eq_true, if_false]
      exact goLoop_drop_okNoMatch j l qre hqre
    | true =>
      cases hjf : q.jobsFetch with
      | error e => simp [okNoMatch, hjf] at hq
      | ok jobs =>
        have hno : jobs.any (jobMatches j) = false := by simpa [okNoMatch, hjf] using hq
        simp only [List.cons_append, Go.getLastSuccessfulLoop, hst, if_true, hjf, hno]
        simp only [Bool.false_eq_true, if_false]
        exact goLoop_drop_okNoMatch j l qre hqre

/-- C9: a provider failure is fatal in every mode and at every point: a
failed run-list fetch yields an error result in Mode A and in both Mode B
realizations, and a failed job-list fetch on the first not-yet-skipped run
yields an error result whatever the rest of the history holds, so no
commit hash or empty-string result is produced and no older run is
consulted. -/
theorem c9_provider_error_fatal (j e : String) (pre post : List WorkflowRun) (r : WorkflowRun)
    (hpre : pre.all (okNoMatch j) = true)
    (hr : r.jobsFetch = .error e)
    (hrc : (r.status == "completed") = true) :
    handleWorkflowRunSha (.error e) = .error ("Error getting workflow runs: " ++ e) ∧
    handleJobSha j (.error e) = .error ("Error getting workflow runs: " ++ e) ∧
    Go.getLastSuccessfulWorkflowRunCommit j (.error e) = .error e ∧
    handleJobShaLoop j (pre ++ r :: post) = .error ("Error getting workflow run jobs: " ++ e) ∧
    Go.getLastSuccessfulLoop j (pre ++ r :: post) = .error e := by
  refine ⟨rfl, rfl, rfl, ?_, ?_⟩
  · rw [handleJobShaLoop_drop_okNoMatch j (r :: post) pre hpre]
    simp [handleJobShaLoop, hr]
  · rw [goLoop_drop_okNoMatch j (r :: post) pre hpre]
    simp [Go.getLastSuccessfulLoop, hrc, hr]

theorem c9_provider_error_fatal_witness :
    handleJobShaLoop "build"
        [⟨2, "completed", "", "main", "hq", .ok [jobBuildFail]⟩,
         ⟨1, "completed", "", "main", "hr", .error "boom"⟩,
         ⟨0, "completed", "", "main", "hp", .ok [jobBuildOk]⟩]
      = .error "Error getting workflow run jobs: boom" ∧
    Go.getLastSuccessfulLoop "build"
        [⟨2, "completed", "", "main", "hq", .ok [jobBuildFail]⟩,
         ⟨1, "completed", "", "main", "hr", .error "boom"⟩,
         ⟨0, "completed", "", "main", "hp", .ok [jobBuildOk]⟩]
      = .error "boom" := by
  have h := c9_provider_error_fatal "build" "boom"
    [⟨2, "completed", "", "main", "hq", .ok [jobBuildFail]⟩]
    [⟨0, "completed", "", "main", "hp", .ok [jobBuildOk]⟩]
    ⟨1, "completed", "", "main", "hr", .error "boom"⟩
    (by decide) (by decide) (by decide)
  exact ⟨h.2.2.2.1, h.2.2.2.2⟩

/-- C10: for a non-pull-request event whose ref path has more than three
"/"-separated segments, the TypeScript branch resolver returns only the
third segment and not the full slash-containing branch name. -/
theorem c10_third_segment_truncation (ev hrOpt : Option String) (ref seg : String)
    (hev : (ev == some "pull_request") = false)
    (hlen : 3 < (splitSlash ref).length)
    (hseg : (splitSlash ref)[2]? = some seg)
    (hne : seg ≠ "")
    (hfull : seg ≠ String.intercalate "/" ((splitSlash ref).drop 2)) :
    getCurrentBranchName ev (some ref) hrOpt = .ok seg ∧
    getCurrentBranchName ev (some ref) hrOpt
      ≠ .ok (String.intercalate "/" ((splitSlash ref).drop 2)) := by
  have h1 : getCurrentBranchName ev (some ref) hrOpt = .ok seg := by
    simp [getCurrentBranchName, hev, hseg, hne]
  refine ⟨h1, ?_⟩
  rw [h1]
  intro hcontr
  exact hfull (Except.ok.inj hcontr)

theorem c10_third_segment_truncation_witness :
    getCurrentBranchName (some "push") (some "refs/heads/feature/x") none = .ok "feature" ∧
    "feature" ≠ "feature/x" := by
  have h := c10_third_segment_truncation (some "push") none "refs/heads/feature/x" "feature"
    (by decide) (by decide) (by decide) (by decide) (by decide)
  exact ⟨h.1, by decide⟩

end LSJR
